import Mathlib

/-!
Verification of the response-normalization and content-partitioning pipeline of the
LinkedIn content-automation service (`src/server.js`).

Strings are modelled as `List Char`; every JavaScript string primitive the core uses
(`trim`, global regex replacement of a literal followed by a whitespace run, `search`
with a case-insensitive literal pattern, `substring`, `indexOf`, `lastIndexOf`,
`split(',')`) is embedded as an executable Lean function, and the core functions
(`parseClaudeResponse`, `splitContentBySubheadings`, `parseCategories`,
`getStrapiCategories`, `findCategoryIds`, `createStrapiArticle`, the `/api/generate`
handler) are translated on top of them.  External I/O (the category-directory fetch,
the LLM call, the CMS write) is passed in as explicit request-scoped data, and the
handler additionally returns the list of external effects it performed.
-/

set_option maxRecDepth 10000

abbrev Str := List Char

/-- The backtick character, code point 96. -/
def btick : Char := Char.ofNat 96

/-- JavaScript whitespace (the characters matched by `\s` and removed by
`String.prototype.trim`, restricted to the ASCII range used by this service). -/
def isWsB (c : Char) : Bool :=
  c = ' ' || c = '\t' || c = '\n' || c = '\r' || c = Char.ofNat 11 || c = Char.ofNat 12

/-- Left part of `String.prototype.trim`: drop leading whitespace. -/
def trimL (s : Str) : Str := s.dropWhile isWsB

/-- Right part of `String.prototype.trim`: drop trailing whitespace. -/
def trimR (s : Str) : Str := (s.reverse.dropWhile isWsB).reverse

/-- `String.prototype.trim`. -/
def trimStr (s : Str) : Str := trimR (trimL s)

/-- Fuel-driven worker for a global regex replacement of the shape
`pat\s*` by the empty string (the only replacements `parseClaudeResponse` performs):
at each position, if the literal `pat` starts here, delete it together with the
whitespace run that follows and continue after it; otherwise keep the character.
Fuel at least the length of the string makes the scan complete. -/
def replaceGo (pat : Str) : Nat → Str → Str
  | _, [] => []
  | 0, s => s
  | fuel + 1, c :: cs =>
    if pat.isPrefixOf (c :: cs) then
      replaceGo pat fuel (((c :: cs).drop pat.length).dropWhile isWsB)
    else
      c :: replaceGo pat fuel cs

/-- `s.replace(/pat\s*/g, '')` for a literal pattern `pat`. -/
def replaceWsRun (pat : Str) (s : Str) : Str := replaceGo pat s.length s

/-- The fence-stripping line of `parseClaudeResponse`:
`rawContent.replace(/```json\s*/g, '').replace(/```\s*/g, '')`. -/
def stripFences (s : Str) : Str :=
  replaceWsRun ("```".data) (replaceWsRun ("```json".data) s)

/-- First index at which `pat` occurs as a substring, `none` when absent
(`String.prototype.indexOf` up to the `-1` encoding). -/
def indexOfAux (pat : Str) : Str → Option Nat
  | [] => if pat.isPrefixOf ([] : Str) then some 0 else none
  | c :: cs =>
    if pat.isPrefixOf (c :: cs) then some 0
    else (indexOfAux pat cs).map (· + 1)

/-- Whether `pat` occurs as a substring of `s`. -/
def occursB (pat s : Str) : Bool := (indexOfAux pat s).isSome

section TrimLemmas

theorem dropWhile_idem (p : Char → Bool) (l : Str) :
    (l.dropWhile p).dropWhile p = l.dropWhile p := by
  induction l with
  | nil => rfl
  | cons c cs ih =>
    by_cases h : p c
    · simp [List.dropWhile, h, ih]
    · simp [List.dropWhile, h]

theorem dropWhile_length_le (p : Char → Bool) (l : Str) :
    (l.dropWhile p).length ≤ l.length := by
  induction l with
  | nil => simp
  | cons c cs ih =>
    by_cases h : p c
    · simp only [List.dropWhile, h]
      exact Nat.le_succ_of_le ih
    · simp [List.dropWhile, h]

theorem dropWhile_eq_self_iff_head (p : Char → Bool) (l : Str) :
    l.dropWhile p = l ↔ ∀ c, l.head? = some c → p c = false := by
  cases l with
  | nil => simp
  | cons c cs =>
    by_cases h : p c
    · simp only [List.dropWhile, h, List.head?_cons]
      constructor
      · intro hEq
        exfalso
        have hle := dropWhile_length_le p cs
        have hlen : (c :: cs).length ≤ cs.length := hEq ▸ hle
        simp only [List.length_cons] at hlen
        omega
      · intro hAll
        have := hAll c rfl
        simp [h] at this
    · simp only [List.dropWhile, h, List.head?_cons]
      constructor
      · intro _ d hd
        cases hd
        simpa using h
      · intro _
        trivial

theorem trimL_idem (s : Str) : trimL (trimL s) = trimL s :=
  dropWhile_idem _ _

theorem trimR_idem (s : Str) : trimR (trimR s) = trimR s := by
  simp only [trimR, List.reverse_reverse]
  rw [dropWhile_idem]

theorem dropWhile_suffix_of (p : Char → Bool) (l : Str) :
    ∃ t, t ++ l.dropWhile p = l := by
  induction l with
  | nil => exact ⟨[], rfl⟩
  | cons c cs ih =>
    by_cases h : p c
    · obtain ⟨t, ht⟩ := ih
      exact ⟨c :: t, by simp [List.dropWhile, h, ht]⟩
    · exact ⟨[], by simp [List.dropWhile, h]⟩

/-- `trimR s` is a prefix of `s` in the explicit sense. -/
theorem trimR_append (s : Str) : ∃ t, trimR s ++ t = s := by
  obtain ⟨t, ht⟩ := dropWhile_suffix_of isWsB s.reverse
  refine ⟨t.reverse, ?_⟩
  have := congrArg List.reverse ht
  simpa [trimR] using this

theorem trimL_of_trimL_eq {s : Str} (h : trimL s = s) : trimL (trimR s) = trimR s := by
  rcases hR : trimR s with _ | ⟨c, cs⟩
  · rfl
  · obtain ⟨t, ht⟩ := trimR_append s
    rw [hR] at ht
    have hhead : s.head? = some c := by
      rw [← ht]; rfl
    have hc : isWsB c = false :=
      (dropWhile_eq_self_iff_head isWsB s).mp h c hhead
    simp [trimL, List.dropWhile, hc]

theorem trimStr_idem (s : Str) : trimStr (trimStr s) = trimStr s := by
  unfold trimStr
  rw [trimL_of_trimL_eq (trimL_idem s), trimR_idem]

end TrimLemmas

/-! ### JSON values and `JSON.parse`

`parseClaudeResponse` returns whatever `JSON.parse` produced, so the result type is a
JSON value tree.  Number literals are kept as their source lexeme; none of the verified
properties depend on numeric values. -/

inductive Json where
  | null : Json
  | bool (b : Bool) : Json
  | num (lit : Str) : Json
  | str (s : Str) : Json
  | arr (elems : List Json) : Json
  | obj (members : List (Str × Json)) : Json

/-- JSON grammar whitespace (space, tab, line feed, carriage return). -/
def isJsonWs (c : Char) : Bool :=
  c = ' ' || c = '\t' || c = '\n' || c = '\r'

def skipWs (s : Str) : Str := s.dropWhile isJsonWs

def isDigitCh (c : Char) : Bool := '0' ≤ c && c ≤ '9'

/-- Value of one hexadecimal digit, by code point: `0`-`9`, `a`-`f`, `A`-`F`. -/
def hexVal (c : Char) : Option Nat :=
  let n := c.toNat
  if 48 ≤ n && n ≤ 57 then some (n - 48)
  else if 97 ≤ n && n ≤ 102 then some (n - 87)
  else if 65 ≤ n && n ≤ 70 then some (n - 55)
  else none

/-- Decode a `\uXXXX` escape: four hex digits. -/
def parseHex4 : Str → Option (Nat × Str)
  | a :: b :: c :: d :: rest =>
    match hexVal a, hexVal b, hexVal c, hexVal d with
    | some va, some vb, some vc, some vd =>
      some (va * 4096 + vb * 256 + vc * 16 + vd, rest)
    | _, _, _, _ => none
  | _ => none

/-- Decode one escape sequence after a backslash. -/
def decodeEscape : Str → Option (Char × Str)
  | '"' :: rest => some ('"', rest)
  | '\\' :: rest => some ('\\', rest)
  | '/' :: rest => some ('/', rest)
  | 'b' :: rest => some (Char.ofNat 8, rest)
  | 'f' :: rest => some (Char.ofNat 12, rest)
  | 'n' :: rest => some ('\n', rest)
  | 'r' :: rest => some ('\r', rest)
  | 't' :: rest => some ('\t', rest)
  | 'u' :: rest => (parseHex4 rest).map (fun (n, r) => (Char.ofNat n, r))
  | _ => none

/-- Parse the body of a JSON string after its opening quote; returns the decoded
content and the remainder after the closing quote.  Raw control characters are
rejected as in strict JSON. -/
def parseStringBody : Nat → Str → Option (Str × Str)
  | 0, _ => none
  | _ + 1, [] => none
  | fuel + 1, c :: cs =>
    if c = '"' then some ([], cs)
    else if c = '\\' then
      match decodeEscape cs with
      | some (ch, rest) => (parseStringBody fuel rest).map (fun (t, r) => (ch :: t, r))
      | none => none
    else if c.toNat < 32 then none
    else (parseStringBody fuel cs).map (fun (t, r) => (c :: t, r))

/-- Lex a JSON number literal per the JSON grammar, returning the lexeme. -/
def parseNumberLit (s : Str) : Option (Str × Str) :=
  let (sign, s1) :=
    match s with
    | '-' :: t => (['-'], t)
    | _ => (([] : Str), s)
  match s1 with
  | [] => none
  | c :: t =>
    if c = '0' then
      let intPart := [c]
      let rest := t
      parseFrac sign intPart rest
    else if isDigitCh c then
      let ds := t.takeWhile isDigitCh
      parseFrac sign (c :: ds) (t.dropWhile isDigitCh)
    else none
where
  parseFrac (sign intPart : Str) (rest : Str) : Option (Str × Str) :=
    let (fracPart, rest1) :=
      match rest with
      | '.' :: u =>
        let ds := u.takeWhile isDigitCh
        if ds = [] then (none, rest)
        else (some ('.' :: ds), u.dropWhile isDigitCh)
      | _ => (none, rest)
    match fracPart with
    | none =>
      match rest with
      | '.' :: _ => none
      | _ => parseExp sign intPart [] rest
    | some f => parseExp sign intPart f rest1
  parseExp (sign intPart fracPart : Str) (rest : Str) : Option (Str × Str) :=
    match rest with
    | 'e' :: u => parseExpTail sign intPart fracPart 'e' u
    | 'E' :: u => parseExpTail sign intPart fracPart 'E' u
    | _ => some (sign ++ intPart ++ fracPart, rest)
  parseExpTail (sign intPart fracPart : Str) (e : Char) (u : Str) : Option (Str × Str) :=
    let (es, u1) :=
      match u with
      | '+' :: w => (['+'], w)
      | '-' :: w => (['-'], w)
      | _ => (([] : Str), u)
    let ds := u1.takeWhile isDigitCh
    if ds = [] then none
    else some (sign ++ intPart ++ fracPart ++ e :: es ++ ds, u1.dropWhile isDigitCh)

/-- One object-member-list loop: entered after `{` with at least one member ahead.
`p` parses a value (the next nesting level). -/
def membersGo (p : Str → Option (Json × Str)) :
    Nat → List (Str × Json) → Str → Option (List (Str × Json) × Str)
  | 0, _, _ => none
  | fuel + 1, acc, s =>
    match s with
    | '"' :: r =>
      match parseStringBody (r.length + 1) r with
      | some (key, r1) =>
        match skipWs r1 with
        | ':' :: r2 =>
          match p r2 with
          | some (v, r3) =>
            match skipWs r3 with
            | ',' :: r4 => membersGo p fuel ((key, v) :: acc) (skipWs r4)
            | '}' :: r4 => some (((key, v) :: acc).reverse, r4)
            | _ => none
          | none => none
        | _ => none
      | none => none
    | _ => none

/-- One array-element loop: entered after `[` with at least one element ahead. -/
def elemsGo (p : Str → Option (Json × Str)) :
    Nat → List Json → Str → Option (List Json × Str)
  | 0, _, _ => none
  | fuel + 1, acc, s =>
    match p s with
    | some (v, r) =>
      match skipWs r with
      | ',' :: r2 => elemsGo p fuel (v :: acc) r2
      | ']' :: r2 => some ((v :: acc).reverse, r2)
      | _ => none
    | none => none

/-- Parse one JSON value given a parser `p` for the next nesting depth. -/
def parseStep (p : Str → Option (Json × Str)) (s0 : Str) : Option (Json × Str) :=
  let s := skipWs s0
  match s with
  | 'n' :: 'u' :: 'l' :: 'l' :: r => some (.null, r)
  | 't' :: 'r' :: 'u' :: 'e' :: r => some (.bool true, r)
  | 'f' :: 'a' :: 'l' :: 's' :: 'e' :: r => some (.bool false, r)
  | '"' :: r => (parseStringBody (r.length + 1) r).map (fun (t, rest) => (Json.str t, rest))
  | '{' :: r =>
    match skipWs r with
    | '}' :: r1 => some (.obj [], r1)
    | r1 => (membersGo p (r1.length + 1) [] r1).map (fun (ms, rest) => (Json.obj ms, rest))
  | '[' :: r =>
    match skipWs r with
    | ']' :: r1 => some (.arr [], r1)
    | r1 => (elemsGo p (r1.length + 1) [] r1).map (fun (es, rest) => (Json.arr es, rest))
  | _ => (parseNumberLit s).map (fun (lit, rest) => (Json.num lit, rest))

/-- Value parser indexed by allowed nesting depth. -/
def parseLevels : Nat → Str → Option (Json × Str)
  | 0, _ => none
  | d + 1, s => parseStep (parseLevels d) s

/-- Core of `JSON.parse` on already-trimmed text: one value followed by at most
whitespace. -/
def jsonParseCore (s : Str) : Option Json :=
  match parseLevels (s.length + 1) s with
  | some (v, rest) => if skipWs rest = [] then some v else none
  | none => none

/-- `JSON.parse`: the JSON grammar permits surrounding whitespace around the
top-level value, modelled by trimming before the core parse. -/
def jsonParse (s : Str) : Option Json := jsonParseCore (trimStr s)

/-- JavaScript property access `obj[name]` on a parsed JSON object, yielding the
value of the last member with the given key (later duplicate keys overwrite
earlier ones in `JSON.parse`). -/
def getField (j : Json) (name : Str) : Option Json :=
  match j with
  | .obj ms => (ms.reverse.find? (fun m => m.1 = name)).map (·.2)
  | _ => none

/-- Property access that additionally requires the value to be a string. -/
def getStrField (j : Json) (name : Str) : Option Str :=
  match getField j name with
  | some (.str s) => some s
  | _ => none

/-! ### JavaScript string-index primitives used by the fallback chain -/

/-- `String.prototype.indexOf` with the `-1` not-found encoding. -/
def jsIndexOf (pat s : Str) : Int :=
  match indexOfAux pat s with
  | some n => (n : Int)
  | none => -1

/-- `String.prototype.lastIndexOf(pat)`: greatest index at which `pat` starts. -/
def jsLastIndexOf (pat s : Str) : Int :=
  match (List.range (s.length + 1)).reverse.find? (fun i => pat.isPrefixOf (s.drop i)) with
  | some i => (i : Int)
  | none => -1

/-- `String.prototype.lastIndexOf(pat, pos)`: greatest index `≤ pos` at which `pat`
starts; a negative `pos` is clamped to `0`, a large one to the string length. -/
def jsLastIndexOfFrom (pat s : Str) (pos : Int) : Int :=
  let start : Nat := if pos < 0 then 0 else min pos.toNat s.length
  match (List.range (start + 1)).reverse.find? (fun i => pat.isPrefixOf (s.drop i)) with
  | some i => (i : Int)
  | none => -1

/-- `String.prototype.substring(a, b)`: clamp both arguments into `[0, length]` and
swap them when out of order. -/
def jsSubstring (s : Str) (a b : Int) : Str :=
  let clamp : Int → Nat := fun x => if x < 0 then 0 else min x.toNat s.length
  let a' := clamp a
  let b' := clamp b
  let lo := min a' b'
  let hi := max a' b'
  (s.take hi).drop lo

/-- `String.prototype.substring(a)` (one-argument form). -/
def jsSubstringFrom (s : Str) (a : Int) : Str :=
  jsSubstring s a (s.length : Int)

/-! ### The Response Normalizer: `parseClaudeResponse` (src/server.js:91-171) -/

/-- The error outcomes of `parseClaudeResponse`'s two `throw` statements. -/
inductive ClaudeParseError where
  | noJson : ClaudeParseError
  | unparseable : ClaudeParseError
deriving DecidableEq, Repr

/-- Fourth fallback of `parseClaudeResponse`: the regex
`/"articleBody":\s*"([\s\S]*?)",\s*"linkedinSnippet":\s*"([\s\S]*?)"\s*}/` applied to
`jsonOnly`.  The lazy captures are modelled as earliest-terminator scans from the first
occurrence of the `"articleBody":` marker. -/
def regexReconstruct (jsonOnly : Str) : Option (Str × Str) := do
  let i ← indexOfAux ("\"articleBody\":".data) jsonOnly
  let afterMarker := skipWsB (jsonOnly.drop (i + ("\"articleBody\":".data).length))
  match afterMarker with
  | '"' :: bodyStart =>
    let (body, rest1) ← lazyCaptureBody bodyStart
    match skipWsB rest1 with
    | '"' :: snipStart =>
      let (snip, _) ← lazyCaptureSnip snipStart
      pure (body, snip)
    | _ => none
  | _ => none
where
  skipWsB (s : Str) : Str := s.dropWhile isWsB
  /-- Shortest capture closed by `",` followed by `\s*"linkedinSnippet":`. -/
  lazyCaptureBody : Str → Option (Str × Str)
    | [] => none
    | c :: cs =>
      if c = '"' then
        match cs with
        | ',' :: cs2 =>
          let after := cs2.dropWhile isWsB
          if ("\"linkedinSnippet\":".data).isPrefixOf after then
            some ([], (after.drop ("\"linkedinSnippet\":".data).length).dropWhile isWsB)
          else (lazyCaptureBody cs).map (fun (t, r) => (c :: t, r))
        | _ => (lazyCaptureBody cs).map (fun (t, r) => (c :: t, r))
      else (lazyCaptureBody cs).map (fun (t, r) => (c :: t, r))
  /-- Shortest capture closed by `"` followed by `\s*}`. -/
  lazyCaptureSnip : Str → Option (Str × Str)
    | [] => none
    | c :: cs =>
      if c = '"' then
        match cs.dropWhile isWsB with
        | '}' :: r => some ([], r)
        | _ => (lazyCaptureSnip cs).map (fun (t, r) => (c :: t, r))
      else (lazyCaptureSnip cs).map (fun (t, r) => (c :: t, r))

/-- Third fallback of `parseClaudeResponse`: manual extraction of the two field values
by index arithmetic, preserving the JavaScript `-1` arithmetic of `indexOf` /
`lastIndexOf` and the clamping of `substring` exactly. -/
def reconstructFields (jsonOnly : Str) : Option Json :=
  let articleBodyStart := jsIndexOf ("\"articleBody\": \"".data) jsonOnly
    + (("\"articleBody\": \"".data).length : Int)
  let linkedinStart := jsIndexOf ("\"linkedinSnippet\": \"".data) jsonOnly
    + (("\"linkedinSnippet\": \"".data).length : Int)
  let articleBodyEnd := jsLastIndexOfFrom ("\",".data) jsonOnly
    (linkedinStart - (("\"linkedinSnippet\": \"".data).length : Int))
  let linkedinEnd := jsLastIndexOfFrom ("\"".data) jsonOnly ((jsonOnly.length : Int) - 2)
  if articleBodyStart > 0 ∧ articleBodyEnd > articleBodyStart ∧
      linkedinStart > 0 ∧ linkedinEnd > linkedinStart then
    let rawArticleBody := jsSubstring jsonOnly articleBodyStart articleBodyEnd
    let rawLinkedinSnippet := jsSubstring jsonOnly linkedinStart linkedinEnd
    some (Json.obj [("articleBody".data, Json.str rawArticleBody),
                    ("linkedinSnippet".data, Json.str rawLinkedinSnippet)])
  else none

/-- The Response Normalizer (`parseClaudeResponse`, src/server.js:91-171): strip code
fences, trim, then run the ordered fallback chain — strict parse, brace-bounded
parse, manual field extraction, regex extraction — and fail with a classified error
when every attempt fails. -/
def parseClaudeResponse (rawContent : Str) : Except ClaudeParseError Json :=
  let content := trimStr (stripFences rawContent)
  match jsonParse content with
  | some v => .ok v
  | none =>
    let jsonStart := jsIndexOf ("\x7b".data) content
    let jsonEnd := jsLastIndexOf ("\x7d".data) content + 1
    if jsonStart ≠ -1 ∧ jsonEnd > jsonStart then
      let jsonOnly := jsSubstring content jsonStart jsonEnd
      match jsonParse jsonOnly with
      | some v => .ok v
      | none =>
        match reconstructFields jsonOnly with
        | some v => .ok v
        | none =>
          match regexReconstruct jsonOnly with
          | some (body, snip) =>
            .ok (Json.obj [("articleBody".data, Json.str body),
                           ("linkedinSnippet".data, Json.str snip)])
          | none => .error .unparseable
    else .error .noJson

/-! ### The Content Partitioner: `splitContentBySubheadings` (src/server.js:65-88) -/

structure ContentSplit where
  firstPart : Str
  secondPart : Str
deriving DecidableEq, Repr

/-- JavaScript truthiness of `sh && sh.trim()` for a possibly-absent string field:
`undefined` and the empty string are falsy, and so is a whitespace-only string
(whose trim is the empty string). -/
def truthySub : Option Str → Bool
  | none => false
  | some s => !(s.isEmpty) && !((trimStr s).isEmpty)

/-- `subheadings.filter(sh => sh && sh.trim())` — the surviving entries as strings. -/
def validSubheadingsOf (subheadings : List (Option Str)) : List Str :=
  subheadings.filterMap (fun o => match o with
    | some s => if truthySub (some s) then some s else none
    | none => none)

/-- `validSubheadings[2]` interpolated into a template literal: a missing third entry
stringifies to `"undefined"` in JavaScript. -/
def thirdSubheadingOf (subheadings : List (Option Str)) : Str :=
  match (validSubheadingsOf subheadings).get? 2 with
  | some sh => sh
  | none => "undefined".data

/-- The split pattern `## ${thirdSubheading}` built at src/server.js:72. -/
def splitPatOf (subheadings : List (Option Str)) : Str :=
  "## ".data ++ thirdSubheadingOf subheadings

/-- ASCII lowering of a string (`String.prototype.toLowerCase` / the regex `i` flag,
on the ASCII alphabet this service uses). -/
def lowerStr (s : Str) : Str := s.map Char.toLower

/-- `content.search(new RegExp(pat, 'i'))` for a metacharacter-free literal `pat`:
the first index at which `pat` matches case-insensitively, `none` for `-1`. -/
def searchCI (pat : Str) : Str → Option Nat
  | [] => if (lowerStr pat).isPrefixOf ([] : Str) then some 0 else none
  | c :: cs =>
    if (lowerStr pat).isPrefixOf (lowerStr (c :: cs)) then some 0
    else (searchCI pat cs).map (· + 1)

/-- The Content Partitioner (`splitContentBySubheadings`, src/server.js:65-88): find
the first case-insensitive match of `## <third valid subheading>` and split there;
when the search fails, split at the character midpoint. -/
def splitContentBySubheadings (content : Str) (subheadings : List (Option Str)) :
    ContentSplit :=
  match searchCI (splitPatOf subheadings) content with
  | some splitMatch =>
    { firstPart := content.take splitMatch
      secondPart := content.drop splitMatch }
  | none =>
    let halfPoint := content.length / 2
    { firstPart := content.take halfPoint
      secondPart := content.drop halfPoint }

/-! ### The Category Resolver (src/server.js:174-220) -/

structure CategoryAttributes where
  name : Str
deriving DecidableEq, Repr

structure Category where
  id : Int
  attributes : CategoryAttributes
deriving DecidableEq, Repr

/-- `categoryInput.split(',')` — JavaScript `split` on a single-character separator:
the empty string yields `[""]`, and adjacent separators yield empty pieces. -/
def splitComma : Str → List Str
  | [] => [[]]
  | c :: cs =>
    if c = ',' then [] :: splitComma cs
    else
      match splitComma cs with
      | h :: t => (c :: h) :: t
      | [] => [[c]]

/-- Raw `category` request field: either a comma-separated string or an array. -/
inductive CategoryInput where
  | str (s : Str) : CategoryInput
  | arr (l : List Str) : CategoryInput
deriving DecidableEq, Repr

/-- `parseCategories` (src/server.js:174-183). -/
def parseCategories : Option CategoryInput → List Str
  | none => []
  | some (.arr l) => l
  | some (.str s) =>
    ((splitComma s).map trimStr).filter (fun cat => cat.length > 0)

/-- `getStrapiCategories` (src/server.js:186-200): the awaited HTTP result is passed
in as data; a failed fetch is logged and becomes the empty list. -/
def getStrapiCategories (fetchResult : Except Unit (List Category)) : List Category :=
  match fetchResult with
  | .ok cats => cats
  | .error _ => []

/-- `findCategoryIds` (src/server.js:203-220) after its directory fetch: for each
requested name, `find` the first directory entry whose lowercased name equals the
lowercased request, pushing its id; misses are logged and skipped. -/
def findCategoryIds (categoryNames : List Str) (strapiCategories : List Category) :
    List Int :=
  match categoryNames with
  | [] => []
  | categoryName :: rest =>
    match strapiCategories.find?
        (fun cat => lowerStr cat.attributes.name = lowerStr categoryName) with
    | some foundCategory => foundCategory.id :: findCategoryIds rest strapiCategories
    | none => findCategoryIds rest strapiCategories

/-! ### The Generation Orchestrator: `app.post('/api/generate')` (src/server.js:475-545)

The three awaited externals (category-directory fetch, LLM call, CMS write) are
request-scoped inputs in an `Env`; the handler returns the HTTP response together
with the ordered list of external side effects it performed (LLM calls and CMS
writes).  The directory fetch is represented through `Env.fetchCategories` consumed
by `getStrapiCategories` and is not an element of the effect list. -/

/-- The record posted to the CMS by `createStrapiArticle` (src/server.js:334-366). -/
structure StrapiArticleData where
  title : Str
  headline : Str
  summary : Str
  body : Str
  bodyImageText : Str
  linkedInSummary : Option Str
  categories : List Int
  publishDate : Str
  publishedAt : Option Str
deriving DecidableEq, Repr

/-- `strapiData` as built by `createStrapiArticle`: `publishedAt: null` keeps the
record a draft for the human editor. -/
def createStrapiArticleData (headline summary articleBody bodyImageText : Str)
    (categoryIds : List Int) (linkedinSnippet : Option Str) (now : Str) :
    StrapiArticleData :=
  { title := headline
    headline := headline
    summary := summary
    body := articleBody
    bodyImageText := bodyImageText
    linkedInSummary := linkedinSnippet
    categories := categoryIds
    publishDate := now
    publishedAt := none }

/-- External side effects the handler can perform beyond the directory fetch. -/
inductive Effect where
  | llmCall : Effect
  | cmsWrite (article : StrapiArticleData) : Effect
deriving DecidableEq, Repr

/-- The request body of `/api/generate`.  A JavaScript-absent field is `none`; the
category field may be a comma-separated string or an array. -/
structure GenRequest where
  headline : Option Str
  summary : Option Str
  category : Option CategoryInput
  funnelType : Option Str
  subheading1 : Option Str
  subheading2 : Option Str
  subheading3 : Option Str
  subheading4 : Option Str
  subheading5 : Option Str
  subheading6 : Option Str
deriving DecidableEq, Repr

deriving instance DecidableEq for Except

/-- Request-scoped outcomes of the three awaited externals plus the wall clock. -/
structure Env where
  fetchCategories : Except Unit (List Category)
  llm : Except Unit Str
  cmsWrite : Except Unit Int
  now : Str
deriving DecidableEq, Repr

/-- JavaScript truthiness of an optional string field (`!headline` guard). -/
def truthyStr : Option Str → Bool
  | none => false
  | some s => !s.isEmpty

/-- JavaScript truthiness of the `category` field: a missing field and the empty
string are falsy; any array (even empty) is truthy. -/
def truthyCat : Option CategoryInput → Bool
  | none => false
  | some (.str s) => !s.isEmpty
  | some (.arr _) => true

structure ApiResponse where
  status : Nat
  success : Bool
  error : Option Str
deriving DecidableEq, Repr

def missingFieldsMsg : Str :=
  "Missing required fields: headline, summary, category, funnelType".data

/-- `categories.join(', ')`. -/
def joinComma : List Str → Str
  | [] => []
  | [s] => s
  | s :: rest => s ++ ", ".data ++ joinComma rest

def noCategoriesMsg (categories : List Str) : Str :=
  "No matching categories found in Strapi for: ".data ++ joinComma categories

def subheadingsMsg : Str :=
  "At least 4 subheadings are required (subheading1-4 minimum)".data

/-- The funnel types with a `CONTENT_PROMPTS` profile; any other value makes
`generateContent` dereference `undefined` before its HTTP call, which the route's
`catch` turns into a 500 response. -/
def knownFunnelTypes : List Str := ["TOF".data, "MOF".data, "EOF".data]

/-- The `subheading1..subheading6` fields in order, as passed to `generateContent`
and `splitContentBySubheadings`. -/
def subheadingsOf (req : GenRequest) : List (Option Str) :=
  [req.subheading1, req.subheading2, req.subheading3,
   req.subheading4, req.subheading5, req.subheading6]

/-- The `/api/generate` handler (src/server.js:475-545): field validation, category
resolution (fails closed on zero ids), subheading-count validation, LLM call,
normalization, partition, CMS write, response shaping.  Any thrown error is caught
and becomes a 500 response. -/
def handleGenerate (env : Env) (req : GenRequest) : ApiResponse × List Effect :=
  if !(truthyStr req.headline && truthyStr req.summary &&
       truthyCat req.category && truthyStr req.funnelType) then
    (⟨400, false, some missingFieldsMsg⟩, [])
  else
    let categories := parseCategories req.category
    let strapiCategories := getStrapiCategories env.fetchCategories
    let categoryIds := findCategoryIds categories strapiCategories
    if categoryIds.length = 0 then
      (⟨400, false, some (noCategoriesMsg categories)⟩, [])
    else
      let subheadings := subheadingsOf req
      let validSubheadings := subheadings.filter truthySub
      if validSubheadings.length < 4 then
        (⟨400, false, some subheadingsMsg⟩, [])
      else if !(knownFunnelTypes.contains (req.funnelType.getD [])) then
        (⟨500, false, some "Claude API failed".data⟩, [])
      else
        match env.llm with
        | .error _ => (⟨500, false, some "Claude API failed".data⟩, [.llmCall])
        | .ok rawContent =>
          match parseClaudeResponse rawContent with
          | .error _ =>
            (⟨500, false, some "Unable to parse Claude response".data⟩, [.llmCall])
          | .ok generated =>
            match getStrField generated ("articleBody".data) with
            | none =>
              (⟨500, false, some "TypeError".data⟩, [.llmCall])
            | some articleBody =>
              let split := splitContentBySubheadings articleBody subheadings
              let article := createStrapiArticleData
                (req.headline.getD []) (req.summary.getD [])
                split.firstPart split.secondPart categoryIds
                (getStrField generated ("linkedinSnippet".data)) env.now
              match env.cmsWrite with
              | .error _ =>
                (⟨500, false, some "Strapi write failed".data⟩,
                 [.llmCall, .cmsWrite article])
              | .ok _ =>
                (⟨200, true, none⟩, [.llmCall, .cmsWrite article])

/-! ### The word-count partition strategy -/

/-- Sentence-ending token per the spec: last character `.`, `!` or `?`. -/
def endsSentenceTok (t : Str) : Bool :=
  match t.getLast? with
  | some c => c = '.' || c = '!' || c = '?'
  | none => false

/-- Tokenize on whitespace runs, keeping each token's following whitespace gap.
Expects input with no leading whitespace; fuel at least the length completes. -/
def lexTokens : Nat → Str → List (Str × Str)
  | 0, _ => []
  | _ + 1, [] => []
  | fuel + 1, s =>
    let tok := s.takeWhile (fun c => !isWsB c)
    let r1 := s.dropWhile (fun c => !isWsB c)
    let gap := r1.takeWhile isWsB
    (tok, gap) :: lexTokens fuel (r1.dropWhile isWsB)

/-- The whitespace tokens of a body, with their trailing gaps. -/
def wordTokens (content : Str) : List (Str × Str) :=
  lexTokens (trimStr content).length (trimStr content)

/-- Whether a gap contains a paragraph break (two consecutive newlines). -/
def gapHasParaBreak (gap : Str) : Bool := occursB ("\n\n".data) gap

/-- First index inside the window `[target - radius, target + radius]` (clipped to
the token range) whose token satisfies the predicate. -/
def findInWindow (n target radius : Nat) (p : Nat → Bool) : Option Nat :=
  let lo := target - radius
  let hi := min (target + radius) (n - 1)
  (((List.range (hi + 1 - lo)).map (· + lo)).find? p)

/-- Whether the whitespace gap following token `i` of the body contains a
paragraph break. -/
def paraBreakAtTok (content : Str) (i : Nat) : Bool :=
  gapHasParaBreak ((((wordTokens content).get? i).map (·.2)).getD [])

/-- Whether token `i` of the body ends in sentence punctuation. -/
def sentenceEndAtTok (content : Str) (i : Nat) : Bool :=
  endsSentenceTok ((((wordTokens content).get? i).map (·.1)).getD [])

/-- Join tokens with single spaces. -/
def joinSpaces : List Str → Str
  | [] => []
  | [t] => t
  | t :: rest => t ++ [' '] ++ joinSpaces rest

/-- Modelled from the spec: the word-count partition strategy of the Content
Partitioner (spec §4.2, "Word-count strategy"), which is described by the spec but
absent from the source under `src/` (the only splitter there is the
subheading-boundary `splitContentBySubheadings`).  Faithful to the spec's words:
tokenize the body on whitespace runs; when the token count is at most the target the
split is (whole trimmed body, empty); otherwise find a break within ±50 tokens of
the target at a paragraph break, else within ±30 tokens after a sentence-ending
token, else exactly at the target index; reassemble each half by joining its tokens
with single spaces and trimming. -/
def splitContentByWordCount (content : Str) (target : Nat) : ContentSplit :=
  let toks := wordTokens content
  if toks.length ≤ target then
    { firstPart := trimStr content, secondPart := [] }
  else
    let breakPoint :=
      match findInWindow toks.length target 50 (paraBreakAtTok content) with
      | some i => i + 1
      | none =>
        match findInWindow toks.length target 30 (sentenceEndAtTok content) with
        | some i => i + 1
        | none => target
    { firstPart := trimStr (joinSpaces ((toks.take breakPoint).map (·.1)))
      secondPart := trimStr (joinSpaces ((toks.drop breakPoint).map (·.1))) }

/-! ## Claim theorems -/

/-- Claim C3: for every article body and every subheading sequence, the two parts
returned by `splitContentBySubheadings` concatenate back to the original body:
`firstPart ++ secondPart` is the input string exactly, so the partitioner discards
and reorders nothing. -/
theorem split_firstPart_append_secondPart (content : Str)
    (subheadings : List (Option Str)) :
    (splitContentBySubheadings content subheadings).firstPart ++
      (splitContentBySubheadings content subheadings).secondPart = content := by
  unfold splitContentBySubheadings
  cases searchCI (splitPatOf subheadings) content with
  | none => simp [List.take_append_drop]
  | some i => simp [List.take_append_drop]

/-- Claim C4: the Category Resolver matches a requested name exactly when a directory
entry's name equals it after lowercasing (exact equality, no partial or fuzzy match);
a match contributes that entry's id in front of the resolution of the remaining
names, and a miss skips to the remaining names without aborting them. -/
theorem findCategoryIds_exact_ci_match (n : Str) (rest : List Str)
    (cats : List Category) :
    ((∃ c ∈ cats, lowerStr c.attributes.name = lowerStr n) →
      ∃ c ∈ cats, lowerStr c.attributes.name = lowerStr n ∧
        findCategoryIds (n :: rest) cats = c.id :: findCategoryIds rest cats) ∧
    ((¬ ∃ c ∈ cats, lowerStr c.attributes.name = lowerStr n) →
      findCategoryIds (n :: rest) cats = findCategoryIds rest cats) := by
  constructor
  · intro hex
    have hsome : (cats.find?
        (fun cat => lowerStr cat.attributes.name = lowerStr n)).isSome := by
      rw [List.find?_isSome]
      obtain ⟨c, hc, he⟩ := hex
      exact ⟨c, hc, by simp [he]⟩
    obtain ⟨c, hc⟩ := Option.isSome_iff_exists.mp hsome
    refine ⟨c, List.mem_of_find?_eq_some hc, ?_, ?_⟩
    · have := List.find?_some hc
      simpa using this
    · conv_lhs => rw [findCategoryIds]
      rw [hc]
  · intro hnone
    have h : cats.find? (fun cat => lowerStr cat.attributes.name = lowerStr n)
        = none := by
      rw [List.find?_eq_none]
      intro c hc
      simp only [decide_eq_true_eq]
      intro he
      exact hnone ⟨c, hc, he⟩
    conv_lhs => rw [findCategoryIds]
    rw [h]

/-- Claim C10: resolution preserves request order with exactly one id per matched
name — the resolved sequence is the image, in request order, of the requested names
that have a directory match, each mapped to the id of its first matching entry. -/
theorem findCategoryIds_order_preserving (names : List Str) (cats : List Category) :
    findCategoryIds names cats =
      (names.filter (fun n =>
        (cats.find? (fun c => lowerStr c.attributes.name = lowerStr n)).isSome)).map
        (fun n =>
          (((cats.find? (fun c => lowerStr c.attributes.name = lowerStr n)).map
            (·.id)).getD 0)) := by
  induction names with
  | nil => rfl
  | cons n rest ih =>
    unfold findCategoryIds
    cases hf : cats.find? (fun c => lowerStr c.attributes.name = lowerStr n) with
    | none =>
      simp only [List.filter_cons, hf, Option.isSome_none, Bool.false_eq_true,
        if_false, ih]
    | some c =>
      simp only [List.filter_cons, hf, Option.isSome_some, if_true, List.map_cons,
        Option.map_some', Option.getD_some, ih]

theorem findCategoryIds_nil_directory (names : List Str) :
    findCategoryIds names [] = [] := by
  induction names with
  | nil => rfl
  | cons n rest ih =>
    unfold findCategoryIds
    simpa using ih

/-- Claim C5: when the requested category set is non-empty but resolves to zero ids,
the orchestrator answers with the validation failure (`success: false`, status 400)
and performs no external effect: no LLM call and no CMS write. -/
theorem generate_zero_categories_validation (env : Env) (req : GenRequest)
    (hfields : (truthyStr req.headline && truthyStr req.summary &&
      truthyCat req.category && truthyStr req.funnelType) = true)
    (hnonempty : parseCategories req.category ≠ [])
    (hzero : findCategoryIds (parseCategories req.category)
      (getStrapiCategories env.fetchCategories) = []) :
    handleGenerate env req =
      (⟨400, false, some (noCategoriesMsg (parseCategories req.category))⟩, []) := by
  unfold handleGenerate
  rw [hfields]
  simp [hzero]

/-- Claim C9: a failed category-directory fetch makes `getStrapiCategories` return
the empty list instead of propagating the error, so a field-valid request receives
the `NoCategoriesMatched` validation response (status 400, no external effects)
rather than an upstream 5xx error. -/
theorem fetch_failure_surfaces_as_validation (env : Env) (req : GenRequest)
    (hfail : env.fetchCategories = .error ())
    (hfields : (truthyStr req.headline && truthyStr req.summary &&
      truthyCat req.category && truthyStr req.funnelType) = true) :
    getStrapiCategories env.fetchCategories = [] ∧
    handleGenerate env req =
      (⟨400, false, some (noCategoriesMsg (parseCategories req.category))⟩, []) := by
  have hempty : getStrapiCategories env.fetchCategories = [] := by
    rw [hfail]; rfl
  refine ⟨hempty, ?_⟩
  unfold handleGenerate
  rw [hfields]
  simp [hempty, findCategoryIds_nil_directory]

/-- Claim C6: every record the orchestrator hands to the CMS carries
`publishedAt = null` — every created record is a draft and none is auto-published. -/
theorem cms_writes_are_drafts (env : Env) (req : GenRequest) (d : StrapiArticleData)
    (h : Effect.cmsWrite d ∈ (handleGenerate env req).2) :
    d.publishedAt = none := by
  unfold handleGenerate at h
  dsimp only at h
  by_cases h1 : (!(truthyStr req.headline && truthyStr req.summary &&
      truthyCat req.category && truthyStr req.funnelType)) = true
  · simp only [if_pos h1] at h
    simp at h
  · simp only [if_neg h1] at h
    by_cases h2 : (findCategoryIds (parseCategories req.category)
        (getStrapiCategories env.fetchCategories)).length = 0
    · simp only [if_pos h2] at h
      simp at h
    · simp only [if_neg h2] at h
      by_cases h3 : (List.filter truthySub (subheadingsOf req)).length < 4
      · simp only [if_pos h3] at h
        simp at h
      · simp only [if_neg h3] at h
        by_cases h4 : (!knownFunnelTypes.contains (req.funnelType.getD [])) = true
        · simp only [if_pos h4] at h
          simp at h
        · simp only [if_neg h4] at h
          rcases hE : env.llm with u | raw
          · rw [hE] at h
            simp at h
          · rw [hE] at h
            dsimp only at h
            rcases hP : parseClaudeResponse raw with e | gen
            · rw [hP] at h
              simp at h
            · rw [hP] at h
              dsimp only at h
              rcases hA : getStrField gen ("articleBody".data) with _ | body
              · rw [hA] at h
                simp at h
              · rw [hA] at h
                dsimp only at h
                rcases hW : env.cmsWrite with u | cid
                · rw [hW] at h
                  simp only [List.mem_cons, List.not_mem_nil, or_false] at h
                  rcases h with h | h
                  · exact absurd h (by simp)
                  · cases h
                    rfl
                · rw [hW] at h
                  simp only [List.mem_cons, List.not_mem_nil, or_false] at h
                  rcases h with h | h
                  · exact absurd h (by simp)
                  · cases h
                    rfl

/-! ### Concrete witness scenarios for the orchestrator claims -/

/-- A directory holding one category named `marketing` with id 5. -/
def witnessDirectory : List Category := [⟨5, ⟨"marketing".data⟩⟩]

/-- A well-behaved LLM response for the witness runs. -/
def witnessLlmRaw : Str :=
  "\x7b\"articleBody\": \"Alpha\n\n## Three\n\nBeta\", \"linkedinSnippet\": \"hook\"\x7d".data

/-- Environment of a fully successful generation run. -/
def envOk : Env :=
  { fetchCategories := .ok witnessDirectory
    llm := .ok witnessLlmRaw
    cmsWrite := .ok 42
    now := "2026-10-11T00:00:00.000Z".data }

/-- A field-valid request matching the witness directory. -/
def reqOk : GenRequest :=
  { headline := some "H".data
    summary := some "S".data
    category := some (.str "Marketing".data)
    funnelType := some "MOF".data
    subheading1 := some "One".data
    subheading2 := some "Two".data
    subheading3 := some "Three".data
    subheading4 := some "Four".data
    subheading5 := none
    subheading6 := none }

/-- The same request asking for a category absent from the directory. -/
def reqNoMatch : GenRequest := { reqOk with category := some (.str "Nonexistent".data) }

/-- Environment whose category-directory fetch fails. -/
def envFetchFail : Env := { envOk with fetchCategories := .error () }

/-- The article written by the successful witness run. -/
def writtenArticle (env : Env) (req : GenRequest) : StrapiArticleData :=
  match (handleGenerate env req).2 with
  | [_, Effect.cmsWrite d] => d
  | _ => createStrapiArticleData [] [] [] [] [] none []

theorem generate_zero_categories_validation_witness :
    (truthyStr reqNoMatch.headline && truthyStr reqNoMatch.summary &&
      truthyCat reqNoMatch.category && truthyStr reqNoMatch.funnelType) = true ∧
    parseCategories reqNoMatch.category ≠ [] ∧
    findCategoryIds (parseCategories reqNoMatch.category)
      (getStrapiCategories envOk.fetchCategories) = [] ∧
    handleGenerate envOk reqNoMatch =
      (⟨400, false, some (noCategoriesMsg (parseCategories reqNoMatch.category))⟩, []) :=
  ⟨by decide, by decide, by decide,
   generate_zero_categories_validation envOk reqNoMatch (by decide) (by decide)
     (by decide)⟩

theorem fetch_failure_surfaces_as_validation_witness :
    envFetchFail.fetchCategories = .error () ∧
    (truthyStr reqOk.headline && truthyStr reqOk.summary &&
      truthyCat reqOk.category && truthyStr reqOk.funnelType) = true ∧
    (getStrapiCategories envFetchFail.fetchCategories = [] ∧
     handleGenerate envFetchFail reqOk =
       (⟨400, false, some (noCategoriesMsg (parseCategories reqOk.category))⟩, [])) :=
  ⟨by decide, by decide,
   fetch_failure_surfaces_as_validation envFetchFail reqOk (by decide) (by decide)⟩

theorem cms_writes_are_drafts_witness :
    Effect.cmsWrite (writtenArticle envOk reqOk) ∈ (handleGenerate envOk reqOk).2 ∧
    (writtenArticle envOk reqOk).publishedAt = none :=
  ⟨by decide,
   cms_writes_are_drafts envOk reqOk (writtenArticle envOk reqOk) (by decide)⟩

/-! ### The subheading-boundary split: first-occurrence characterization -/

theorem searchCI_eq_indexOfAux_lower (pat : Str) (s : Str) :
    searchCI pat s = indexOfAux (lowerStr pat) (lowerStr s) := by
  induction s with
  | nil => rfl
  | cons c cs ih =>
    unfold searchCI indexOfAux
    simp only [lowerStr, List.map_cons]
    simp only [lowerStr] at ih
    rw [ih]

theorem indexOfAux_some_spec (pat : Str) (s : Str) (i : Nat)
    (h : indexOfAux pat s = some i) :
    pat.isPrefixOf (s.drop i) = true ∧
      ∀ j, j < i → pat.isPrefixOf (s.drop j) = false := by
  induction s generalizing i with
  | nil =>
    unfold indexOfAux at h
    by_cases hp : pat.isPrefixOf ([] : Str)
    · rw [if_pos hp] at h
      cases h
      exact ⟨hp, fun j hj => absurd hj (by omega)⟩
    · rw [if_neg hp] at h
      cases h
  | cons c cs ih =>
    unfold indexOfAux at h
    by_cases hp : pat.isPrefixOf (c :: cs)
    · rw [if_pos hp] at h
      cases h
      exact ⟨hp, fun j hj => absurd hj (by omega)⟩
    · rw [if_neg hp] at h
      cases hrec : indexOfAux pat cs with
      | none => rw [hrec] at h; cases h
      | some i' =>
        rw [hrec] at h
        simp only [Option.map_some'] at h
        cases h
        obtain ⟨h1, h2⟩ := ih i' hrec
        refine ⟨by simpa using h1, ?_⟩
        intro j hj
        cases j with
        | zero => simpa using (Bool.eq_false_iff.mpr hp)
        | succ j' =>
          have : j' < i' := by omega
          simpa using h2 j' this

theorem indexOfAux_none_spec (pat : Str) (s : Str)
    (h : indexOfAux pat s = none) :
    ∀ j, pat.isPrefixOf (s.drop j) = false := by
  induction s with
  | nil =>
    intro j
    unfold indexOfAux at h
    by_cases hp : pat.isPrefixOf ([] : Str)
    · rw [if_pos hp] at h; cases h
    · simpa [List.drop_nil] using Bool.eq_false_iff.mpr hp
  | cons c cs ih =>
    intro j
    unfold indexOfAux at h
    by_cases hp : pat.isPrefixOf (c :: cs)
    · rw [if_pos hp] at h; cases h
    · rw [if_neg hp] at h
      cases hrec : indexOfAux pat cs with
      | some i' => rw [hrec] at h; cases h
      | none =>
        cases j with
        | zero => simpa using (Bool.eq_false_iff.mpr hp)
        | succ j' => simpa using ih hrec j'

/-- A markdown heading line at position `i` whose text equals `h`
(case-insensitively): `i` starts a line, and the line is `## ` followed by exactly
`h`. This is the claim's notion of a heading-line occurrence. -/
def headingLineB (content : Str) (i : Nat) (hText : Str) : Bool :=
  (i == 0 || content[i-1]? == some '\n') &&
    lowerStr ((content.drop i).takeWhile (fun c => !(c = '\n'))) ==
      lowerStr ("## ".data ++ hText)

/-- Counterexample body: the pattern `## C` occurs mid-line (inside
`intro ## C more`) before the genuine heading line `## C`. -/
def cexBody : Str := "intro ## C more\n## C\nEnd".data

/-- Counterexample subheadings: the third valid subheading is `C`. -/
def cexSubs : List (Option Str) := [some "A".data, some "B".data, some "C".data]

/-- Claim C2 as stated is false: in `cexBody` the first (and only) markdown heading
line whose text equals the third valid subheading `C` starts at index 16, yet the
partitioner does not split there — it splits at index 6, the first occurrence of the
unanchored pattern `## C` inside the line `intro ## C more`. -/
theorem splitContentBySubheadings_heading_line_cex :
    thirdSubheadingOf cexSubs = "C".data ∧
    headingLineB cexBody 16 ("C".data) = true ∧
    (List.range 16).all (fun j => !headingLineB cexBody j ("C".data)) = true ∧
    (splitContentBySubheadings cexBody cexSubs).firstPart ≠ cexBody.take 16 ∧
    (splitContentBySubheadings cexBody cexSubs).firstPart = cexBody.take 6 := by
  decide

/-- Claim C2 amended: the partitioner splits at the first case-insensitive
occurrence of the substring `## ` + third valid subheading anywhere in the body —
not necessarily at a line start, and matching only a prefix of a longer heading —
and falls back to the character midpoint exactly when that substring does not occur
at all. -/
theorem splitContentBySubheadings_first_occurrence (content : Str)
    (subs : List (Option Str)) :
    (∀ i,
      (lowerStr (splitPatOf subs)).isPrefixOf ((lowerStr content).drop i) = true →
      (∀ j, j < i →
        (lowerStr (splitPatOf subs)).isPrefixOf ((lowerStr content).drop j) = false) →
      splitContentBySubheadings content subs =
        ⟨content.take i, content.drop i⟩) ∧
    ((∀ j,
      (lowerStr (splitPatOf subs)).isPrefixOf ((lowerStr content).drop j) = false) →
      splitContentBySubheadings content subs =
        ⟨content.take (content.length / 2), content.drop (content.length / 2)⟩) := by
  constructor
  · intro i hat hleast
    have hsearch : searchCI (splitPatOf subs) content = some i := by
      rw [searchCI_eq_indexOfAux_lower]
      cases hidx : indexOfAux (lowerStr (splitPatOf subs)) (lowerStr content) with
      | none =>
        have := indexOfAux_none_spec _ _ hidx i
        rw [this] at hat
        cases hat
      | some i' =>
        obtain ⟨h1, h2⟩ := indexOfAux_some_spec _ _ _ hidx
        have hii : i = i' := by
          rcases Nat.lt_trichotomy i i' with hlt | heq | hgt
          · have := h2 i hlt
            rw [this] at hat
            cases hat
          · exact heq
          · have := hleast i' hgt
            rw [this] at h1
            cases h1
        rw [hii]
    unfold splitContentBySubheadings
    rw [hsearch]
  · intro hnone
    have hsearch : searchCI (splitPatOf subs) content = none := by
      rw [searchCI_eq_indexOfAux_lower]
      cases hidx : indexOfAux (lowerStr (splitPatOf subs)) (lowerStr content) with
      | none => rfl
      | some i' =>
        obtain ⟨h1, _⟩ := indexOfAux_some_spec _ _ _ hidx
        have := hnone i'
        rw [this] at h1
        cases h1
    unfold splitContentBySubheadings
    rw [hsearch]

theorem splitContentBySubheadings_first_occurrence_witness :
    ((lowerStr (splitPatOf cexSubs)).isPrefixOf ((lowerStr cexBody).drop 6) = true ∧
     (∀ j, j < 6 →
       (lowerStr (splitPatOf cexSubs)).isPrefixOf ((lowerStr cexBody).drop j) = false)) ∧
    splitContentBySubheadings cexBody cexSubs = ⟨cexBody.take 6, cexBody.drop 6⟩ :=
  ⟨⟨by decide, by decide⟩,
   (splitContentBySubheadings_first_occurrence cexBody cexSubs).1 6 (by decide)
     (by decide)⟩


-- L1: no occurrence -> identity
theorem replaceGo_of_not_occurs (pat : Str) (s : Str)
    (h : occursB pat s = false) : ∀ fuel, replaceGo pat fuel s = s := by
  induction s with
  | nil => intro fuel; cases fuel <;> rfl
  | cons c cs ih =>
    intro fuel
    have hp : pat.isPrefixOf (c :: cs) = false := by
      cases hb : pat.isPrefixOf (c :: cs) with
      | false => rfl
      | true =>
        exfalso
        unfold occursB indexOfAux at h
        rw [hb] at h
        simp at h
    have hcs : occursB pat cs = false := by
      unfold occursB indexOfAux at h
      rw [hp] at h
      simp only [Bool.false_eq_true, if_false] at h
      unfold occursB
      cases hidx : indexOfAux pat cs with
      | none => rfl
      | some i =>
        rw [hidx] at h
        simp at h
    cases fuel with
    | zero => rfl
    | succ f =>
      unfold replaceGo
      rw [hp]
      simp only [Bool.false_eq_true, if_false]
      rw [ih hcs f]

-- prefix transitivity on Bool level
theorem isPrefixOf_trans_bool : ∀ (a b c : Str),
    a.isPrefixOf b = true → b.isPrefixOf c = true → a.isPrefixOf c = true := by
  intro a
  induction a with
  | nil =>
    intro b c _ _
    cases c <;> rfl
  | cons x a ih =>
    intro b c h1 h2
    cases b with
    | nil => simp [List.isPrefixOf] at h1
    | cons y b =>
      cases c with
      | nil => simp [List.isPrefixOf] at h2
      | cons z c =>
        simp only [List.isPrefixOf, Bool.and_eq_true, beq_iff_eq] at h1 h2 ⊢
        exact ⟨h1.1.trans h2.1, ih b c h1.2 h2.2⟩

theorem occursB_true_iff (pat s : Str) :
    occursB pat s = true ↔ ∃ j, pat.isPrefixOf (s.drop j) = true := by
  constructor
  · intro h
    unfold occursB at h
    cases hidx : indexOfAux pat s with
    | none => rw [hidx] at h; cases h
    | some i => exact ⟨i, (indexOfAux_some_spec pat s i hidx).1⟩
  · intro ⟨j, hj⟩
    unfold occursB
    cases hidx : indexOfAux pat s with
    | none =>
      have := indexOfAux_none_spec pat s hidx j
      rw [this] at hj
      cases hj
    | some i => rfl

theorem occursB_extends (pat pat2 s : Str) (hpp : pat.isPrefixOf pat2 = true)
    (h : occursB pat s = false) : occursB pat2 s = false := by
  cases hb : occursB pat2 s with
  | false => rfl
  | true =>
    exfalso
    obtain ⟨j, hj⟩ := (occursB_true_iff pat2 s).mp hb
    have : occursB pat s = true :=
      (occursB_true_iff pat s).mpr ⟨j, isPrefixOf_trans_bool _ _ _ hpp hj⟩
    rw [h] at this
    cases this

theorem stripFences_id_of_no_fence (raw : Str)
    (h : occursB ("```".data) raw = false) : stripFences raw = raw := by
  have h7 : occursB ("```json".data) raw = false :=
    occursB_extends ("```".data) ("```json".data) raw (by decide) h
  unfold stripFences replaceWsRun
  rw [replaceGo_of_not_occurs _ _ h7, replaceGo_of_not_occurs _ _ h]

theorem replaceGo_append_no_btick (pt : Str) (xs ys : Str) (hx : btick ∉ xs) :
    ∀ fuel, xs.length ≤ fuel →
      replaceGo (btick :: pt) fuel (xs ++ ys) =
        xs ++ replaceGo (btick :: pt) (fuel - xs.length) ys := by
  induction xs with
  | nil => intro fuel _; simp
  | cons c cs ih =>
    intro fuel hf
    cases fuel with
    | zero => simp at hf
    | succ f =>
      have hc : ¬(btick = c) := by
        intro h
        exact hx (h ▸ List.mem_cons_self c cs)
      have hcond : (btick :: pt).isPrefixOf (c :: (cs ++ ys)) = false := by
        simp [List.isPrefixOf, hc]
      have hx' : btick ∉ cs := fun h => hx (List.mem_cons_of_mem c h)
      have hf' : cs.length ≤ f := by simpa using hf
      calc replaceGo (btick :: pt) (f + 1) ((c :: cs) ++ ys)
          = c :: replaceGo (btick :: pt) f (cs ++ ys) := by
            show (if (btick :: pt).isPrefixOf (c :: (cs ++ ys)) = true
                then replaceGo (btick :: pt) f
                  (List.dropWhile isWsB (List.drop (btick :: pt).length (c :: (cs ++ ys))))
                else c :: replaceGo (btick :: pt) f (cs ++ ys)) =
              c :: replaceGo (btick :: pt) f (cs ++ ys)
            rw [hcond]
            simp
        _ = c :: (cs ++ replaceGo (btick :: pt) (f - cs.length) ys) := by
            rw [ih hx' f hf']
        _ = (c :: cs) ++ replaceGo (btick :: pt) ((f + 1) - (c :: cs).length) ys := by
            have harith : (f + 1) - (c :: cs).length = f - cs.length := by
              simp only [List.length_cons]
              omega
            rw [harith]
            simp

theorem trimStr_append_nl (t : Str) :
    trimStr (('{' :: t) ++ ['\n']) = trimStr ('{' :: t) := by
  unfold trimStr trimL trimR
  have h1 : List.dropWhile isWsB (('{' :: t) ++ ['\n']) = '{' :: (t ++ ['\n']) := by
    rw [List.cons_append, List.dropWhile_cons, if_neg (by decide)]
  have h2 : List.dropWhile isWsB ('{' :: t) = '{' :: t := by
    rw [List.dropWhile_cons, if_neg (by decide)]
  rw [h1, h2]
  have h3 : ('{' :: (t ++ ['\n'])).reverse = '\n' :: ('{' :: t).reverse := by
    rw [← List.cons_append, List.reverse_append]
    rfl
  rw [h3]
  have h4 : List.dropWhile isWsB ('\n' :: ('{' :: t).reverse) =
      List.dropWhile isWsB (('{' :: t).reverse) := by
    rw [List.dropWhile_cons, if_pos (by decide)]
  rw [h4]

theorem stripFences_jsonWrap (t : Str) (hnb : btick ∉ ('{' :: t)) :
    stripFences ("```json\n".data ++ ('{' :: t) ++ "\n```".data) =
      ('{' :: t) ++ "\n".data := by
  have hpat7 : ("```json".data : Str) = btick :: "``json".data := rfl
  have hpat3 : ("```".data : Str) = btick :: "``".data := rfl
  have hlen : ("```json\n".data ++ ('{' :: t) ++ "\n```".data).length
      = ('{' :: t).length + 12 := by
    simp [List.length_append]
  unfold stripFences
  have e1 : replaceWsRun ("```json".data)
        ("```json\n".data ++ ('{' :: t) ++ "\n```".data)
      = replaceGo ("```json".data)
          (("```json\n".data ++ ('{' :: t) ++ "\n```".data).length - 1)
          (('{' :: t) ++ "\n```".data) := rfl
  rw [e1, hpat7]
  rw [replaceGo_append_no_btick ("``json".data) ('{' :: t) ("\n```".data) hnb
      (("```json\n".data ++ ('{' :: t) ++ "\n```".data).length - 1) (by omega)]
  have harith1 : ("```json\n".data ++ ('{' :: t) ++ "\n```".data).length - 1
      - ('{' :: t).length = 11 := by omega
  rw [harith1]
  have e2 : replaceGo (btick :: "``json".data) 11 ("\n```".data) = "\n```".data := by
    decide
  rw [e2]
  have hlen2 : (('{' :: t) ++ "\n```".data).length = ('{' :: t).length + 4 := by
    simp [List.length_append]
  have e3 : replaceWsRun ("```".data) (('{' :: t) ++ "\n```".data)
      = replaceGo ("```".data) ((('{' :: t) ++ "\n```".data).length)
          (('{' :: t) ++ "\n```".data) := rfl
  rw [e3, hpat3]
  rw [replaceGo_append_no_btick ("``".data) ('{' :: t) ("\n```".data) hnb
      ((('{' :: t) ++ "\n```".data).length) (by omega)]
  have harith2 : (('{' :: t) ++ "\n```".data).length - ('{' :: t).length = 4 := by
    omega
  rw [harith2]
  have e4 : replaceGo (btick :: "``".data) 4 ("\n```".data) = "\n".data := by decide
  rw [e4]

theorem stripFences_plainWrap (t : Str) (hnb : btick ∉ ('{' :: t)) :
    stripFences ("```\n".data ++ ('{' :: t) ++ "\n```".data) =
      ('{' :: t) ++ "\n".data := by
  have hpat7 : ("```json".data : Str) = btick :: "``json".data := rfl
  have hpat3 : ("```".data : Str) = btick :: "``".data := rfl
  have hlen : ("```\n".data ++ ('{' :: t) ++ "\n```".data).length
      = ('{' :: t).length + 8 := by
    simp [List.length_append]
  unfold stripFences
  have e1 : replaceWsRun ("```json".data)
        ("```\n".data ++ ('{' :: t) ++ "\n```".data)
      = "```\n".data ++
          replaceGo ("```json".data)
            (("```\n".data ++ ('{' :: t) ++ "\n```".data).length - 4)
            (('{' :: t) ++ "\n```".data) := rfl
  rw [e1, hpat7]
  rw [replaceGo_append_no_btick ("``json".data) ('{' :: t) ("\n```".data) hnb
      (("```\n".data ++ ('{' :: t) ++ "\n```".data).length - 4) (by omega)]
  have harith1 : ("```\n".data ++ ('{' :: t) ++ "\n```".data).length - 4
      - ('{' :: t).length = 4 := by omega
  rw [harith1]
  have e2 : replaceGo (btick :: "``json".data) 4 ("\n```".data) = "\n```".data := by
    decide
  rw [e2]
  have hlen2 : ("```\n".data ++ (('{' :: t) ++ "\n```".data)).length
      = ('{' :: t).length + 8 := by
    simp [List.length_append]
  have e3 : replaceWsRun ("```".data) ("```\n".data ++ (('{' :: t) ++ "\n```".data))
      = replaceGo ("```".data)
          (("```\n".data ++ (('{' :: t) ++ "\n```".data)).length - 1)
          (('{' :: t) ++ "\n```".data) := rfl
  rw [e3, hpat3]
  rw [replaceGo_append_no_btick ("``".data) ('{' :: t) ("\n```".data) hnb
      (("```\n".data ++ (('{' :: t) ++ "\n```".data)).length - 1) (by omega)]
  have harith2 : ("```\n".data ++ (('{' :: t) ++ "\n```".data)).length - 1
      - ('{' :: t).length = 7 := by omega
  rw [harith2]
  have e4 : replaceGo (btick :: "``".data) 7 ("\n```".data) = "\n".data := by decide
  rw [e4]

theorem occursB_btick_head (pt : Str) (s : Str) (h : btick ∉ s) :
    occursB (btick :: pt) s = false := by
  cases hb : occursB (btick :: pt) s with
  | false => rfl
  | true =>
    exfalso
    obtain ⟨j, hj⟩ := (occursB_true_iff (btick :: pt) s).mp hb
    cases hd : s.drop j with
    | nil =>
      rw [hd] at hj
      simp [List.isPrefixOf] at hj
    | cons d ds =>
      rw [hd] at hj
      simp only [List.isPrefixOf, Bool.and_eq_true, beq_iff_eq] at hj
      apply h
      have hmem : d ∈ s.drop j := by
        rw [hd]
        exact List.mem_cons_self d ds
      exact hj.1 ▸ List.mem_of_mem_drop hmem

/-- The Normalizer is a function of the fence-stripped, trimmed content only. -/
theorem parseClaudeResponse_content_congr (a b : Str)
    (h : trimStr (stripFences a) = trimStr (stripFences b)) :
    parseClaudeResponse a = parseClaudeResponse b := by
  unfold parseClaudeResponse
  rw [h]

/-- Claim C1: on a raw LLM response that is well-formed JSON carrying the
`articleBody` and `linkedinSnippet` fields, with no code fences and no embedded
control characters, the Normalizer returns exactly the result of directly
JSON-parsing the raw string: the first fallback succeeds and the stripping and
trimming preamble is the identity on such input. -/
theorem parseClaudeResponse_direct (raw : Str) (v : Json)
    (hnofence : occursB ("```".data) raw = false)
    (hnoctrl : ∀ c ∈ raw, 32 ≤ c.toNat)
    (hparse : jsonParse raw = some v)
    (hfields : (getStrField v ("articleBody".data)).isSome = true ∧
      (getStrField v ("linkedinSnippet".data)).isSome = true) :
    parseClaudeResponse raw = .ok v := by
  unfold parseClaudeResponse
  rw [stripFences_id_of_no_fence raw hnofence]
  have h2 : jsonParse (trimStr raw) = some v := by
    unfold jsonParse at hparse ⊢
    rw [trimStr_idem]
    exact hparse
  dsimp only
  rw [h2]

/-- Claim C7: wrapping a well-formed two-field JSON object in triple-backtick code
fences — tagged `json` or untagged — does not change what the Normalizer returns:
the fence-stripping preamble reduces the wrapped text to the same trimmed content
as the unwrapped text. -/
theorem parseClaudeResponse_fence_insensitive (s : Str) (v : Json)
    (hnb : btick ∉ s)
    (hhead : s.head? = some '{')
    (hparse : jsonParse s = some v)
    (hfields : (getStrField v ("articleBody".data)).isSome = true ∧
      (getStrField v ("linkedinSnippet".data)).isSome = true) :
    parseClaudeResponse ("```json\n".data ++ s ++ "\n```".data) =
      parseClaudeResponse s ∧
    parseClaudeResponse ("```\n".data ++ s ++ "\n```".data) =
      parseClaudeResponse s := by
  obtain ⟨t, rfl⟩ : ∃ t, s = '{' :: t := by
    cases s with
    | nil => cases hhead
    | cons c cs =>
      refine ⟨cs, ?_⟩
      simp only [List.head?_cons, Option.some.injEq] at hhead
      rw [hhead]
  have hid : stripFences ('{' :: t) = '{' :: t :=
    stripFences_id_of_no_fence ('{' :: t)
      (by
        have : ("```".data : Str) = btick :: "``".data := rfl
        rw [this]
        exact occursB_btick_head ("``".data) ('{' :: t) hnb)
  constructor
  · apply parseClaudeResponse_content_congr
    rw [stripFences_jsonWrap t hnb, hid, trimStr_append_nl]
  · apply parseClaudeResponse_content_congr
    rw [stripFences_plainWrap t hnb, hid, trimStr_append_nl]

/-- Concrete well-formed two-field raw response for the C1 witness. -/
def rawDirect : Str :=
  "\x7b\"articleBody\": \"a\", \"linkedinSnippet\": \"b\"\x7d".data

/-- Its direct JSON parse. -/
def valDirect : Json :=
  Json.obj [("articleBody".data, Json.str "a".data),
            ("linkedinSnippet".data, Json.str "b".data)]

theorem parseClaudeResponse_direct_witness :
    occursB ("```".data) rawDirect = false ∧
    (∀ c ∈ rawDirect, 32 ≤ c.toNat) ∧
    jsonParse rawDirect = some valDirect ∧
    ((getStrField valDirect ("articleBody".data)).isSome = true ∧
      (getStrField valDirect ("linkedinSnippet".data)).isSome = true) ∧
    parseClaudeResponse rawDirect = .ok valDirect :=
  ⟨by decide, by decide, by rfl, ⟨by rfl, by rfl⟩,
   parseClaudeResponse_direct rawDirect valDirect (by decide) (by decide) (by rfl)
     ⟨by rfl, by rfl⟩⟩

/-- Concrete two-field JSON object text for the C7 witness. -/
def rawUnfenced : Str :=
  "\x7b\"articleBody\": \"x\", \"linkedinSnippet\": \"y\"\x7d".data

/-- Its direct JSON parse. -/
def valUnfenced : Json :=
  Json.obj [("articleBody".data, Json.str "x".data),
            ("linkedinSnippet".data, Json.str "y".data)]

theorem parseClaudeResponse_fence_insensitive_witness :
    btick ∉ rawUnfenced ∧
    rawUnfenced.head? = some '{' ∧
    jsonParse rawUnfenced = some valUnfenced ∧
    (parseClaudeResponse ("```json\n".data ++ rawUnfenced ++ "\n```".data) =
       parseClaudeResponse rawUnfenced ∧
     parseClaudeResponse ("```\n".data ++ rawUnfenced ++ "\n```".data) =
       parseClaudeResponse rawUnfenced) :=
  ⟨by decide, by rfl, by rfl,
   parseClaudeResponse_fence_insensitive rawUnfenced valUnfenced (by decide) (by rfl)
     (by rfl) ⟨by rfl, by rfl⟩⟩

theorem findCategoryIds_exact_ci_match_witness :
    (∃ c ∈ witnessDirectory,
      lowerStr c.attributes.name = lowerStr ("Marketing".data)) ∧
    (∃ c ∈ witnessDirectory,
      lowerStr c.attributes.name = lowerStr ("Marketing".data) ∧
      findCategoryIds ("Marketing".data :: ["Zzz".data]) witnessDirectory =
        c.id :: findCategoryIds ["Zzz".data] witnessDirectory) :=
  ⟨by decide,
   (findCategoryIds_exact_ci_match ("Marketing".data) ["Zzz".data]
     witnessDirectory).1 (by decide)⟩

theorem findInWindow_some_spec (n t r : Nat) (p : Nat → Bool) (i : Nat)
    (h : findInWindow n t r p = some i) :
    t - r ≤ i ∧ i ≤ min (t + r) (n - 1) ∧ p i = true := by
  unfold findInWindow at h
  have hp := List.find?_some h
  have hmem := List.mem_of_find?_eq_some h
  simp only [List.mem_map, List.mem_range] at hmem
  obtain ⟨x, hx, rfl⟩ := hmem
  refine ⟨by omega, by omega, hp⟩

theorem findInWindow_none_spec (n t r : Nat) (p : Nat → Bool)
    (h : findInWindow n t r p = none) :
    ∀ i, t - r ≤ i → i ≤ min (t + r) (n - 1) → p i = false := by
  intro i h1 h2
  unfold findInWindow at h
  have hmem : i ∈ (List.range (min (t + r) (n - 1) + 1 - (t - r))).map (· + (t - r)) := by
    simp only [List.mem_map, List.mem_range]
    exact ⟨i - (t - r), by omega, by omega⟩
  have := List.find?_eq_none.mp h i hmem
  simpa using this

/-- Claim C8 (spec-modelled): the word-count strategy returns the whole trimmed
body and an empty second part when the token count is at most the target; above
the target, the break point is one past a token within ±50 of the target whose
gap holds a paragraph break, else one past a token within ±30 ending a sentence,
else exactly the target index, and both halves are the space-joined trimmed token
ranges on either side of the break. -/
theorem splitContentByWordCount_spec (content : Str) (target : Nat) :
    ((wordTokens content).length ≤ target →
      splitContentByWordCount content target =
        ⟨trimStr content, []⟩) ∧
    (target < (wordTokens content).length →
      ∃ b, splitContentByWordCount content target =
          ⟨trimStr (joinSpaces (((wordTokens content).take b).map (·.1))),
           trimStr (joinSpaces (((wordTokens content).drop b).map (·.1)))⟩ ∧
        ((∃ i, b = i + 1 ∧ target - 50 ≤ i ∧
            i ≤ min (target + 50) ((wordTokens content).length - 1) ∧
            paraBreakAtTok content i = true)
         ∨ ((∀ i, target - 50 ≤ i →
              i ≤ min (target + 50) ((wordTokens content).length - 1) →
              paraBreakAtTok content i = false) ∧
            ∃ i, b = i + 1 ∧ target - 30 ≤ i ∧
              i ≤ min (target + 30) ((wordTokens content).length - 1) ∧
              sentenceEndAtTok content i = true)
         ∨ ((∀ i, target - 50 ≤ i →
              i ≤ min (target + 50) ((wordTokens content).length - 1) →
              paraBreakAtTok content i = false) ∧
            (∀ i, target - 30 ≤ i →
              i ≤ min (target + 30) ((wordTokens content).length - 1) →
              sentenceEndAtTok content i = false) ∧
            b = target))) := by
  constructor
  · intro hle
    unfold splitContentByWordCount
    rw [if_pos hle]
  · intro hgt
    unfold splitContentByWordCount
    rw [if_neg (by omega)]
    dsimp only
    cases h50 : findInWindow (wordTokens content).length target 50
        (paraBreakAtTok content) with
    | some i =>
      dsimp only
      obtain ⟨hb1, hb2, hb3⟩ := findInWindow_some_spec _ _ _ _ _ h50
      exact ⟨i + 1, rfl, Or.inl ⟨i, rfl, hb1, hb2, hb3⟩⟩
    | none =>
      dsimp only
      have hnone50 := findInWindow_none_spec _ _ _ _ h50
      cases h30 : findInWindow (wordTokens content).length target 30
          (sentenceEndAtTok content) with
      | some i =>
        dsimp only
        obtain ⟨hb1, hb2, hb3⟩ := findInWindow_some_spec _ _ _ _ _ h30
        exact ⟨i + 1, rfl, Or.inr (Or.inl ⟨hnone50, i, rfl, hb1, hb2, hb3⟩)⟩
      | none =>
        dsimp only
        have hnone30 := findInWindow_none_spec _ _ _ _ h30
        exact ⟨target, rfl, Or.inr (Or.inr ⟨hnone50, hnone30, rfl⟩)⟩

theorem splitContentByWordCount_spec_witness :
    (wordTokens ("a b".data)).length ≤ 5 ∧
    splitContentByWordCount ("a b".data) 5 = ⟨trimStr ("a b".data), []⟩ :=
  ⟨by decide, (splitContentByWordCount_spec ("a b".data) 5).1 (by decide)⟩
